import Mathlib

/-!
# Garbled two-input gate (`main.go`): embedding and verified properties

Byte strings (`[]byte`) are lists of naturals; a byte is a natural below 256 and
the byte-wise `^` of Go is `Nat.xor`, which never leaves that range, so no
reduction modulo 256 is needed.  A Go run-time panic is the `error` side of
`Except Panic`; a Go `error` return value is the `error` side of an inner
`Except Err`.  The AES-GCM primitive (`Seal` / `Open` of `crypto/cipher`) is a
parameter of the development; the entropy source is assumed to deliver, and the
bytes it delivers for a nonce are an explicit argument.
-/

namespace GarbledCircuits

/-- Byte strings: Go `[]byte`; `nil` and the empty slice are both `[]`. -/
abbrev Bytes := List Nat

/-- Go `type GateType int`. -/
abbrev GateType := Int

/-- Constant `AND` (`iota` = 0). -/
def AND : GateType := 0

/-- Constant `OR` (1). -/
def OR : GateType := 1

/-- Constant `XOR` (2). -/
def XOR : GateType := 2

/-- Constant `LabelLength`: length in bytes for labels. -/
def LabelLength : Nat := 16

/-- Go `type Wire struct { l0, l1 []byte }`. -/
structure Wire where
  l0 : Bytes
  l1 : Bytes
deriving DecidableEq, Repr

/-- Go `type Gate struct { table [4][]byte; typ GateType }`. -/
structure Gate where
  table : Fin 4 → Bytes
  typ : GateType

/-- Run-time panics the program can raise. -/
inductive Panic where
  /-- `aes.NewCipher` rejected the key (`KeySizeError`), re-raised by `panic(err)`. -/
  | keySize (n : Nat)
  /-- An index expression `s[j]` with `j` outside `0 .. len(s)-1`. -/
  | indexOutOfRange
  /-- A slice expression `s[:12]` / `s[12:]` out of bounds. -/
  | sliceBounds
deriving DecidableEq, Repr

/-- Go `error` values the program returns. -/
inductive Err where
  /-- The error of `aesgcm.Open`: message authentication failed. -/
  | authFailed
  /-- The error of `evaluateGate`: "failed to evaluate gate". -/
  | evalFailed
deriving DecidableEq, Repr

/-- The AEAD returned by `cipher.NewGCM(block)`, with `dst` and the additional
data fixed to `nil` as in every call of the program:
`Seal key nonce plaintext` and `Open key nonce ciphertext`. -/
structure AEAD where
  Seal : Bytes → Bytes → Bytes → Bytes
  Open : Bytes → Bytes → Bytes → Option Bytes

/-- Key sizes `aes.NewCipher` of the Go standard library accepts: 16, 24 or 32
bytes (AES-128, AES-192, AES-256); any other length is a `KeySizeError`. -/
def aesKeySizeOk (n : Nat) : Bool :=
  n == 16 || n == 24 || n == 32

/-- The `aes.NewCipher(key)` step followed by `if err != nil { panic(err) }`. -/
def newCipher (key : Bytes) : Except Panic Unit :=
  if aesKeySizeOk key.length then .ok () else .error (.keySize key.length)

/-- Function `enc`; `nonce` is what `rand.Read` wrote into the 12-byte buffer. -/
def enc (A : AEAD) (key nonce plaintext : Bytes) : Except Panic Bytes := do
  newCipher key
  pure (nonce ++ A.Seal key nonce plaintext)

/-- Function `dec`: the slice expressions `ciphertext[:12]` and
`ciphertext[12:]` panic when the ciphertext has fewer than 12 bytes. -/
def dec (A : AEAD) (key ciphertext : Bytes) : Except Panic (Except Err Bytes) := do
  newCipher key
  if ciphertext.length < 12 then throw .sliceBounds
  let nonce := ciphertext.take 12
  let ct := ciphertext.drop 12
  match A.Open key nonce ct with
  | some p => pure (.ok p)
  | none => pure (.error .authFailed)

/-- The loop `for j := range key { key[j] = a[j] ^ b[j] }` over a key of `n`
bytes: an index past the end of `a` or `b` panics. -/
def xorBytes : Nat → Bytes → Bytes → Except Panic Bytes
  | 0, _, _ => .ok []
  | n + 1, x :: xs, y :: ys =>
    match xorBytes n xs ys with
    | .ok r => .ok ((x ^^^ y) :: r)
    | .error p => .error p
  | _ + 1, _, _ => .error .indexOutOfRange

/-- Input label of wire 1 chosen in iteration `i` of `garbleGate`. -/
def selIn1 (in1 : Wire) (i : Fin 4) : Bytes :=
  if i = 1 ∨ i = 3 then in1.l1 else in1.l0

/-- Input label of wire 2 chosen in iteration `i` of `garbleGate`. -/
def selIn2 (in2 : Wire) (i : Fin 4) : Bytes :=
  if i = 2 ∨ i = 3 then in2.l1 else in2.l0

/-- Output label chosen by the `switch gate.typ` of `garbleGate`; a type outside
the three constants matches no case and leaves `_out` nil. -/
def selOut (typ : GateType) (out : Wire) (i : Fin 4) : Bytes :=
  if typ = AND then (if i = 3 then out.l1 else out.l0)
  else if typ = OR then (if i = 0 then out.l0 else out.l1)
  else if typ = XOR then (if i = 1 ∨ i = 2 then out.l1 else out.l0)
  else []

/-- Row key of iteration `i`: `make([]byte, len(_in1))` filled with
`_in1[j] ^ _in2[j]`. -/
def rowKey (in1 in2 : Wire) (i : Fin 4) : Except Panic Bytes :=
  xorBytes (selIn1 in1 i).length (selIn1 in1 i) (selIn2 in2 i)

/-- One iteration of the loop of `garbleGate`. -/
def garbleRow (A : AEAD) (in1 in2 out : Wire) (nonces : Fin 4 → Bytes)
    (gate : Gate) (i : Fin 4) : Except Panic Gate := do
  let key ← rowKey in1 in2 i
  let entry ← enc A key (nonces i) (selOut gate.typ out i)
  pure { gate with table := Function.update gate.table i entry }

/-- Function `garbleGate`; `nonces i` is the nonce drawn by the `enc` call of
iteration `i`. -/
def garbleGate (A : AEAD) (gate : Gate) (in1 in2 out : Wire)
    (nonces : Fin 4 → Bytes) : Except Panic Gate :=
  [0, 1, 2, 3].foldlM (garbleRow A in1 in2 out nonces) gate

/-- The loop `for _, entry := range gate.table` of `evaluateGate` over the
remaining indices. -/
def evalLoop (A : AEAD) (key : Bytes) (table : Fin 4 → Bytes) :
    List (Fin 4) → Except Panic (Except Err Bytes)
  | [] => .ok (.error .evalFailed)
  | i :: rest =>
    match dec A key (table i) with
    | .error p => .error p
    | .ok (.ok result) => .ok (.ok result)
    | .ok (.error _) => evalLoop A key table rest

/-- Function `evaluateGate`. -/
def evaluateGate (A : AEAD) (gate : Gate) (l1 l2 : Bytes) :
    Except Panic (Except Err Bytes) :=
  match xorBytes LabelLength l1 l2 with
  | .error p => .error p
  | .ok key => evalLoop A key gate.table [0, 1, 2, 3]

/-- The pairs `inputs[i]` that `main` feeds to `evaluateGate`. -/
def mainInputs (in1 in2 : Wire) (i : Fin 4) : Bytes × Bytes :=
  if i = 0 then (in1.l0, in2.l0)
  else if i = 1 then (in1.l0, in2.l1)
  else if i = 2 then (in1.l1, in2.l0)
  else (in1.l1, in2.l1)

/-- The `expectedOutput` that `main` compares the result with. -/
def expectedOutput (typ : GateType) (out : Wire) (i : Fin 4) : Bytes :=
  if typ = AND then (if i = 3 then out.l1 else out.l0)
  else if typ = OR then (if i = 0 then out.l0 else out.l1)
  else if typ = XOR then (if i = 1 ∨ i = 2 then out.l1 else out.l0)
  else []

/-! ## Vocabulary of the specification -/

/-- Specification `label_for(b)`: the label a wire assigns to the bit `b`. -/
def Wire.labelFor (w : Wire) (b : Bool) : Bytes :=
  if b then w.l1 else w.l0

/-- Specification `truth(gate_type, in1_bit, in2_bit)`: Boolean AND, OR, XOR. -/
def truth (typ : GateType) (b1 b2 : Bool) : Bool :=
  if typ = AND then b1 && b2
  else if typ = OR then b1 || b2
  else if typ = XOR then Bool.xor b1 b2
  else false

/-- Byte-wise exclusive-or of two byte strings, as a pure function. -/
def xorZip (a b : Bytes) : Bytes :=
  List.zipWith (· ^^^ ·) a b

/-- Opening under the sealing key and nonce returns the plaintext. -/
def SealOpen (A : AEAD) : Prop :=
  ∀ key nonce p : Bytes, key.length = 16 → nonce.length = 12 →
    A.Open key nonce (A.Seal key nonce p) = some p

/-- Opening under a key other than the sealing key fails. -/
def WrongKeyFails (A : AEAD) : Prop :=
  ∀ key key2 nonce p : Bytes, key.length = 16 → key2.length = 16 →
    nonce.length = 12 → key ≠ key2 →
    A.Open key2 nonce (A.Seal key nonce p) = none

/-- A small authenticated cipher used to instantiate the assumptions: the tag
appended to the plaintext is the key itself. -/
def toyAEAD : AEAD where
  Seal := fun key _ p => p ++ key
  Open := fun key _ ct =>
    if key.length ≤ ct.length ∧ ct.drop (ct.length - key.length) = key then
      some (ct.take (ct.length - key.length))
    else none

deriving instance DecidableEq for Except

/-- The composition `evaluateGate(garbleGate(gate, in1, in2, out), l1, l2)`. -/
def garbleEval (A : AEAD) (gate : Gate) (in1 in2 out : Wire) (nonces : Fin 4 → Bytes)
    (l1 l2 : Bytes) : Except Panic (Except Err Bytes) :=
  match garbleGate A gate in1 in2 out nonces with
  | .error p => .error p
  | .ok g => evaluateGate A g l1 l2

/-- The literal `Gate{typ: gateType}` of `main`: every table entry is nil. -/
def emptyGate (typ : GateType) : Gate :=
  ⟨fun _ => [], typ⟩

/-- Sample input wire 1: labels `00…00` and `01…01`. -/
def sampleIn1 : Wire := ⟨List.replicate 16 0, List.replicate 16 1⟩

/-- Sample input wire 2: labels `02…02` and `03…03`; its two labels differ by
the same bytes as those of `sampleIn1`. -/
def sampleIn2 : Wire := ⟨List.replicate 16 2, List.replicate 16 3⟩

/-- Sample input wire 2 whose labels `02…02` and `05…05` differ by other bytes
than those of `sampleIn1`. -/
def sampleIn2b : Wire := ⟨List.replicate 16 2, List.replicate 16 5⟩

/-- Sample output wire: labels `07…07` and `09…09`. -/
def sampleOut : Wire := ⟨List.replicate 16 7, List.replicate 16 9⟩

/-- Sample nonces: row `i` draws twelve bytes `i`. -/
def sampleNonces : Fin 4 → Bytes := fun i => List.replicate 12 i.val

/-- Sample garbled gate: the table `garbleGate` builds for an `XOR` gate from
`sampleIn1`, `sampleIn2b`, `sampleOut` and `sampleNonces` under `toyAEAD`. -/
def sampleGate : Gate :=
  ⟨fun i => sampleNonces i ++
      toyAEAD.Seal (xorZip (selIn1 sampleIn1 i) (selIn2 sampleIn2b i)) (sampleNonces i)
        (selOut XOR sampleOut i), XOR⟩

/-- Sample garbled gate with a shared key: the table `garbleGate` builds for an
`AND` gate from `sampleIn1`, `sampleIn2`, `sampleOut` and `sampleNonces` under
`toyAEAD`; rows 0 and 3 are sealed under the same key. -/
def sampleGateShared : Gate :=
  ⟨fun i => sampleNonces i ++
      toyAEAD.Seal (xorZip (selIn1 sampleIn1 i) (selIn2 sampleIn2 i)) (sampleNonces i)
        (selOut AND sampleOut i), AND⟩

/-- Bit 0 (value 0x1) of a table index. -/
def bit0 (i : Fin 4) : Bool := i.val % 2 == 1

/-- Bit 1 (value 0x2) of a table index. -/
def bit1 (i : Fin 4) : Bool := i.val / 2 == 1

/-! ## Byte-wise exclusive-or -/

theorem nat_xor_cross (x y z w : Nat) : x ^^^ y = z ^^^ w ↔ x ^^^ z = y ^^^ w := by
  constructor <;> intro h <;> apply Nat.eq_of_testBit_eq <;> intro i <;>
    have hb := congrArg (fun n => Nat.testBit n i) h <;>
    simp only [Nat.testBit_xor] at hb ⊢ <;> revert hb <;>
    cases x.testBit i <;> cases y.testBit i <;> cases z.testBit i <;>
    cases w.testBit i <;> simp

theorem xorZip_length (a b : Bytes) (h : a.length = b.length) :
    (xorZip a b).length = a.length := by
  simp [xorZip, h]

theorem xorBytes_eq_xorZip (n : Nat) (a b : Bytes) (ha : n ≤ a.length) (hb : n ≤ b.length) :
    xorBytes n a b = .ok (xorZip (a.take n) (b.take n)) := by
  induction n generalizing a b with
  | zero => simp [xorBytes, xorZip]
  | succ n ih =>
    cases a with
    | nil => simp at ha
    | cons x xs =>
      cases b with
      | nil => simp at hb
      | cons y ys =>
        simp only [List.length_cons, Nat.add_le_add_iff_right] at ha hb
        simp [xorBytes, ih xs ys ha hb, xorZip]

theorem xorBytes_full (a b : Bytes) (h : a.length = b.length) :
    xorBytes a.length a b = .ok (xorZip a b) := by
  have := xorBytes_eq_xorZip a.length a b (le_refl _) (by omega)
  rw [this, List.take_length, h, List.take_length]

theorem xorBytes_short (n : Nat) (a b : Bytes) (h : a.length < n ∨ b.length < n) :
    xorBytes n a b = .error .indexOutOfRange := by
  induction n generalizing a b with
  | zero => simp at h
  | succ n ih =>
    cases a with
    | nil => simp [xorBytes]
    | cons x xs =>
      cases b with
      | nil => simp [xorBytes]
      | cons y ys =>
        simp only [List.length_cons, Nat.add_lt_add_iff_right] at h
        simp [xorBytes, ih xs ys h]

theorem xorZip_cross (a0 a1 c0 c1 : Bytes) (h1 : a0.length = a1.length)
    (h2 : a0.length = c0.length) (h3 : a0.length = c1.length) :
    xorZip a0 c0 = xorZip a1 c1 ↔ xorZip a0 a1 = xorZip c0 c1 := by
  induction a0 generalizing a1 c0 c1 with
  | nil =>
    cases a1 <;> cases c0 <;> cases c1 <;> simp_all [xorZip]
  | cons x xs ih =>
    cases a1 with
    | nil => simp at h1
    | cons y ys =>
      cases c0 with
      | nil => simp at h2
      | cons z zs =>
        cases c1 with
        | nil => simp at h3
        | cons w ws =>
          simp only [List.length_cons, Nat.add_right_cancel_iff] at h1 h2 h3
          have := ih ys zs ws h1 h2 h3
          simp only [xorZip] at this
          simp only [xorZip, List.zipWith_cons_cons, List.cons.injEq]
          rw [this, nat_xor_cross x z y w]

theorem xorZip_left_inj (a b c : Bytes) (h1 : a.length = c.length) (h2 : b.length = c.length) :
    xorZip a c = xorZip b c ↔ a = b := by
  induction a generalizing b c with
  | nil =>
    cases b <;> cases c <;> simp_all [xorZip]
  | cons x xs ih =>
    cases b with
    | nil => simp at h1 h2; omega
    | cons y ys =>
      cases c with
      | nil => simp at h1
      | cons z zs =>
        simp only [List.length_cons, Nat.add_right_cancel_iff] at h1 h2
        have := ih ys zs h1 h2
        simp only [xorZip] at this
        simp only [xorZip, List.zipWith_cons_cons, List.cons.injEq]
        rw [this, Nat.xor_left_inj]

theorem xorZip_right_inj (a b c : Bytes) (h1 : a.length = c.length) (h2 : b.length = c.length) :
    xorZip c a = xorZip c b ↔ a = b := by
  induction a generalizing b c with
  | nil =>
    cases b <;> cases c <;> simp_all [xorZip]
  | cons x xs ih =>
    cases b with
    | nil => simp at h1 h2; omega
    | cons y ys =>
      cases c with
      | nil => simp at h1
      | cons z zs =>
        simp only [List.length_cons, Nat.add_right_cancel_iff] at h1 h2
        have := ih ys zs h1 h2
        simp only [xorZip] at this
        simp only [xorZip, List.zipWith_cons_cons, List.cons.injEq]
        rw [this, Nat.xor_right_inj]

/-! ## The cipher wrapper -/

theorem toyAEAD_sealOpen : SealOpen toyAEAD := by
  intro key nonce p _ _
  simp [toyAEAD]

theorem toyAEAD_wrongKeyFails : WrongKeyFails toyAEAD := by
  intro key key2 nonce p hk hk2 _ hne
  simp only [toyAEAD, List.length_append, hk, hk2]
  have h : (p ++ key).drop (p.length + 16 - 16) = key := by simp
  rw [h]
  simp [hne]

theorem newCipher_ok (key : Bytes) (hk : key.length = 16) : newCipher key = .ok () := by
  simp [newCipher, aesKeySizeOk, hk]

theorem enc_ok (A : AEAD) (key nonce p : Bytes) (hk : key.length = 16) :
    enc A key nonce p = .ok (nonce ++ A.Seal key nonce p) := by
  simp [enc, newCipher_ok key hk, bind, Except.bind, pure, Except.pure]

theorem dec_eq (A : AEAD) (key ct : Bytes) (hk : key.length = 16) (hc : 12 ≤ ct.length) :
    dec A key ct =
      .ok (match A.Open key (ct.take 12) (ct.drop 12) with
        | some p => .ok p
        | none => .error .authFailed) := by
  have h : ¬ ct.length < 12 := by omega
  simp only [dec, newCipher_ok key hk, bind, Except.bind, h, if_false, pure, Except.pure]
  cases A.Open key (ct.take 12) (ct.drop 12) <;> rfl

theorem dec_short (A : AEAD) (key ct : Bytes) (hk : key.length = 16) (hc : ct.length < 12) :
    dec A key ct = .error .sliceBounds := by
  simp [dec, newCipher_ok key hk, bind, Except.bind, hc, throw, throwThe, MonadExceptOf.throw]

theorem dec_sealed (A : AEAD) (hso : SealOpen A) (hwk : WrongKeyFails A)
    (k key nonce p : Bytes) (hk : k.length = 16) (hkey : key.length = 16)
    (hn : nonce.length = 12) :
    dec A k (nonce ++ A.Seal key nonce p) =
      .ok (if k = key then .ok p else .error .authFailed) := by
  rw [dec_eq A k _ hk (by simp [hn])]
  have h1 : (nonce ++ A.Seal key nonce p).take 12 = nonce := by
    rw [← hn]; simp
  have h2 : (nonce ++ A.Seal key nonce p).drop 12 = A.Seal key nonce p := by
    rw [← hn]; simp
  rw [h1, h2]
  by_cases h : k = key
  · subst h
    simp [hso k nonce p hk hn]
  · simp [h, hwk key k nonce p hkey hk hn (fun e => h e.symm)]

/-- C4. Cipher round trip: when `Open` returns what `Seal` sealed under the same
key and nonce, then for a 16-byte key, a 12-byte nonce and any plaintext `p`,
`enc` returns a ciphertext `c`, `dec key c` succeeds with exactly `p`, and
splitting `c` at byte 12 gives back the nonce and the sealed payload. -/
theorem dec_enc_roundtrip (A : AEAD) (hso : SealOpen A) (key nonce p : Bytes)
    (hk : key.length = 16) (hn : nonce.length = 12) :
    ∃ c, enc A key nonce p = .ok c ∧ dec A key c = .ok (.ok p) ∧
      c.take 12 = nonce ∧ c.drop 12 = A.Seal key nonce p := by
  refine ⟨nonce ++ A.Seal key nonce p, enc_ok A key nonce p hk, ?_, ?_, ?_⟩
  · rw [dec_eq A key _ hk (by simp [hn])]
    have h1 : (nonce ++ A.Seal key nonce p).take 12 = nonce := by
      rw [← hn]; simp
    have h2 : (nonce ++ A.Seal key nonce p).drop 12 = A.Seal key nonce p := by
      rw [← hn]; simp
    rw [h1, h2, hso key nonce p hk hn]
  · rw [← hn]; simp
  · rw [← hn]; simp

/-- Witness of C4 on the toy cipher: a 16-byte key, a 12-byte nonce, plaintext `[1, 2, 3]`. -/
theorem dec_enc_roundtrip_witness :
    SealOpen toyAEAD ∧ (List.replicate 16 5).length = 16 ∧ (List.replicate 12 9).length = 12 ∧
    ∃ c, enc toyAEAD (List.replicate 16 5) (List.replicate 12 9) [1, 2, 3] = .ok c ∧
      dec toyAEAD (List.replicate 16 5) c = .ok (.ok [1, 2, 3]) ∧
      c.take 12 = List.replicate 12 9 ∧
      c.drop 12 = toyAEAD.Seal (List.replicate 16 5) (List.replicate 12 9) [1, 2, 3] :=
  ⟨toyAEAD_sealOpen, by decide, by decide,
    dec_enc_roundtrip toyAEAD toyAEAD_sealOpen (List.replicate 16 5) (List.replicate 12 9)
      [1, 2, 3] (by decide) (by decide)⟩

/-- C6 (counterexample). With a 16-byte key, `dec` on the empty ciphertext and on
an 11-byte ciphertext aborts with a slice-bounds panic: it returns neither a
plaintext nor an error value. -/
theorem dec_short_ciphertext_panics :
    (List.replicate 16 0).length = 16 ∧
    dec toyAEAD (List.replicate 16 0) [] = .error .sliceBounds ∧
    dec toyAEAD (List.replicate 16 0) (List.replicate 11 0) = .error .sliceBounds :=
  ⟨by decide, rfl, rfl⟩

/-- C6 (amended). For every 16-byte key and every ciphertext of at least 12
bytes, `dec` does not panic: it returns the plaintext `Open` authenticated for
the split-off nonce and payload, or the authentication-failed error value. -/
theorem dec_total_on_long_ciphertext (A : AEAD) (key ct : Bytes) (hk : key.length = 16)
    (hc : 12 ≤ ct.length) :
    (∃ p, A.Open key (ct.take 12) (ct.drop 12) = some p ∧ dec A key ct = .ok (.ok p)) ∨
    (A.Open key (ct.take 12) (ct.drop 12) = none ∧ dec A key ct = .ok (.error .authFailed)) := by
  rw [dec_eq A key ct hk hc]
  cases h : A.Open key (ct.take 12) (ct.drop 12) with
  | none => right; simp
  | some p => left; exact ⟨p, by simp⟩

/-- Witness of the amended C6: a 12-byte ciphertext that fails to authenticate. -/
theorem dec_total_on_long_ciphertext_witness :
    (List.replicate 16 0).length = 16 ∧ 12 ≤ (List.replicate 12 7).length ∧
    ((∃ p, toyAEAD.Open (List.replicate 16 0) ((List.replicate 12 7).take 12)
          ((List.replicate 12 7).drop 12) = some p ∧
        dec toyAEAD (List.replicate 16 0) (List.replicate 12 7) = .ok (.ok p)) ∨
     (toyAEAD.Open (List.replicate 16 0) ((List.replicate 12 7).take 12)
          ((List.replicate 12 7).drop 12) = none ∧
        dec toyAEAD (List.replicate 16 0) (List.replicate 12 7) = .ok (.error .authFailed))) :=
  ⟨by decide, by decide,
    dec_total_on_long_ciphertext toyAEAD (List.replicate 16 0) (List.replicate 12 7)
      (by decide) (by decide)⟩

/-- C7 (counterexample). A 24-byte key and a 32-byte key, neither of length 16,
do not make `enc` fail: key setup accepts them and a ciphertext is returned. -/
theorem enc_accepts_24_and_32_byte_keys :
    (List.replicate 24 0).length ≠ 16 ∧
    enc toyAEAD (List.replicate 24 0) (List.replicate 12 1) [5] =
      .ok (List.replicate 12 1 ++ toyAEAD.Seal (List.replicate 24 0) (List.replicate 12 1) [5]) ∧
    (List.replicate 32 0).length ≠ 16 ∧
    enc toyAEAD (List.replicate 32 0) (List.replicate 12 1) [5] =
      .ok (List.replicate 12 1 ++ toyAEAD.Seal (List.replicate 32 0) (List.replicate 12 1) [5]) :=
  ⟨by decide, rfl, by decide, rfl⟩

/-- C7 (amended). `enc` fails with the key-setup panic exactly for keys whose
length is none of 16, 24 and 32 bytes; for every other key, in particular every
16-byte key, it returns the nonce followed by the sealed plaintext. -/
theorem enc_key_setup (A : AEAD) (key nonce p : Bytes) :
    (enc A key nonce p = .error (.keySize key.length) ↔
      (key.length ≠ 16 ∧ key.length ≠ 24 ∧ key.length ≠ 32)) ∧
    (enc A key nonce p = .ok (nonce ++ A.Seal key nonce p) ↔
      (key.length = 16 ∨ key.length = 24 ∨ key.length = 32)) := by
  by_cases h : key.length = 16 ∨ key.length = 24 ∨ key.length = 32
  · have hok : aesKeySizeOk key.length = true := by
      rcases h with h | h | h <;> simp [aesKeySizeOk, h]
    have he : enc A key nonce p = .ok (nonce ++ A.Seal key nonce p) := by
      simp [enc, newCipher, hok, bind, Except.bind, pure, Except.pure]
    rw [he]
    constructor
    · constructor
      · intro h'; cases h'
      · intro h'; omega
    · simp [h]
  · have hbad : aesKeySizeOk key.length = false := by
      simp only [not_or] at h
      simp [aesKeySizeOk, h.1, h.2.1, h.2.2]
    have he : enc A key nonce p = .error (.keySize key.length) := by
      simp [enc, newCipher, hbad, bind, Except.bind]
    rw [he]
    constructor
    · simp only [not_or] at h
      simp [h]
    · constructor
      · intro h'; cases h'
      · intro h'; exact absurd h' h

/-- C9. Ciphertext non-determinism: for every key the cipher accepts, every
plaintext and two different 12-byte nonces, both `enc` calls return, each
output begins with its own nonce, and the two ciphertexts differ; for any key
at all, two returned ciphertexts of such calls differ. -/
theorem enc_nonce_prefix_distinct (A : AEAD) (key p n1 n2 : Bytes)
    (h1 : n1.length = 12) (h2 : n2.length = 12) (hne : n1 ≠ n2) :
    (aesKeySizeOk key.length = true →
      ∃ c1 c2, enc A key n1 p = .ok c1 ∧ enc A key n2 p = .ok c2 ∧
        c1.take 12 = n1 ∧ c2.take 12 = n2 ∧ c1 ≠ c2) ∧
    (∀ c1 c2, enc A key n1 p = .ok c1 → enc A key n2 p = .ok c2 →
        c1.take 12 = n1 ∧ c2.take 12 = n2 ∧ c1 ≠ c2) := by
  have key_fact : ∀ c1 c2, enc A key n1 p = .ok c1 → enc A key n2 p = .ok c2 →
      c1.take 12 = n1 ∧ c2.take 12 = n2 ∧ c1 ≠ c2 := by
    intro c1 c2 e1 e2
    by_cases hok : aesKeySizeOk key.length = true
    · simp only [enc, newCipher, hok, if_true, bind, Except.bind, pure, Except.pure,
        Except.ok.injEq] at e1 e2
      have t1 : c1.take 12 = n1 := by rw [← e1, ← h1]; simp
      have t2 : c2.take 12 = n2 := by rw [← e2, ← h2]; simp
      refine ⟨t1, t2, ?_⟩
      intro hc
      apply hne
      rw [← t1, ← t2, hc]
    · simp [enc, newCipher, hok, bind, Except.bind] at e1
  refine ⟨?_, key_fact⟩
  intro hok
  have e1 : enc A key n1 p = .ok (n1 ++ A.Seal key n1 p) := by
    simp [enc, newCipher, hok, bind, Except.bind, pure, Except.pure]
  have e2 : enc A key n2 p = .ok (n2 ++ A.Seal key n2 p) := by
    simp [enc, newCipher, hok, bind, Except.bind, pure, Except.pure]
  obtain ⟨t1, t2, t3⟩ := key_fact _ _ e1 e2
  exact ⟨_, _, e1, e2, t1, t2, t3⟩

/-- Witness of C9 on the toy cipher: same key and plaintext, nonces `0…0` and `1…1`. -/
theorem enc_nonce_prefix_distinct_witness :
    (List.replicate 12 0).length = 12 ∧ (List.replicate 12 1).length = 12 ∧
    List.replicate 12 0 ≠ List.replicate 12 1 ∧
    ((aesKeySizeOk (List.replicate 16 3).length = true →
      ∃ c1 c2, enc toyAEAD (List.replicate 16 3) (List.replicate 12 0) [4] = .ok c1 ∧
        enc toyAEAD (List.replicate 16 3) (List.replicate 12 1) [4] = .ok c2 ∧
        c1.take 12 = List.replicate 12 0 ∧ c2.take 12 = List.replicate 12 1 ∧ c1 ≠ c2) ∧
    (∀ c1 c2, enc toyAEAD (List.replicate 16 3) (List.replicate 12 0) [4] = .ok c1 →
        enc toyAEAD (List.replicate 16 3) (List.replicate 12 1) [4] = .ok c2 →
        c1.take 12 = List.replicate 12 0 ∧ c2.take 12 = List.replicate 12 1 ∧ c1 ≠ c2)) :=
  ⟨by decide, by decide, by decide,
    enc_nonce_prefix_distinct toyAEAD (List.replicate 16 3) [4] (List.replicate 12 0)
      (List.replicate 12 1) (by decide) (by decide) (by decide)⟩

/-! ## Garbling -/

theorem selIn1_length (in1 : Wire) (i : Fin 4) (h0 : in1.l0.length = 16)
    (h1 : in1.l1.length = 16) : (selIn1 in1 i).length = 16 := by
  unfold selIn1; split <;> assumption

theorem selIn2_length (in2 : Wire) (i : Fin 4) (h0 : in2.l0.length = 16)
    (h1 : in2.l1.length = 16) : (selIn2 in2 i).length = 16 := by
  unfold selIn2; split <;> assumption

theorem rowKey_ok (in1 in2 : Wire) (i : Fin 4)
    (h10 : in1.l0.length = 16) (h11 : in1.l1.length = 16)
    (h20 : in2.l0.length = 16) (h21 : in2.l1.length = 16) :
    rowKey in1 in2 i = .ok (xorZip (selIn1 in1 i) (selIn2 in2 i)) ∧
      (xorZip (selIn1 in1 i) (selIn2 in2 i)).length = 16 := by
  have e1 := selIn1_length in1 i h10 h11
  have e2 := selIn2_length in2 i h20 h21
  constructor
  · exact xorBytes_full _ _ (by omega)
  · rw [xorZip_length _ _ (by omega), e1]

theorem garbleRow_ok (A : AEAD) (in1 in2 out : Wire) (nonces : Fin 4 → Bytes)
    (gate : Gate) (i : Fin 4)
    (h10 : in1.l0.length = 16) (h11 : in1.l1.length = 16)
    (h20 : in2.l0.length = 16) (h21 : in2.l1.length = 16) :
    garbleRow A in1 in2 out nonces gate i =
      .ok { gate with table := (Function.update gate.table i
              (nonces i ++ A.Seal (xorZip (selIn1 in1 i) (selIn2 in2 i)) (nonces i)
                (selOut gate.typ out i))) } := by
  obtain ⟨hk, hl⟩ := rowKey_ok in1 in2 i h10 h11 h20 h21
  simp [garbleRow, hk, enc_ok A _ _ _ hl, bind, Except.bind, pure, Except.pure]

theorem garbleGate_ok (A : AEAD) (gate : Gate) (in1 in2 out : Wire) (nonces : Fin 4 → Bytes)
    (h10 : in1.l0.length = 16) (h11 : in1.l1.length = 16)
    (h20 : in2.l0.length = 16) (h21 : in2.l1.length = 16) :
    ∃ g, garbleGate A gate in1 in2 out nonces = .ok g ∧ g.typ = gate.typ ∧
      ∀ i, g.table i =
        nonces i ++ A.Seal (xorZip (selIn1 in1 i) (selIn2 in2 i)) (nonces i)
          (selOut gate.typ out i) := by
  have hrow := fun g i => garbleRow_ok A in1 in2 out nonces g i h10 h11 h20 h21
  simp only [garbleGate, List.foldlM_cons, List.foldlM_nil, hrow, bind, Except.bind, pure,
    Except.pure]
  refine ⟨_, rfl, rfl, ?_⟩
  intro i
  fin_cases i <;> simp [Function.update]

/-- C8. `garbleGate` has no failure path of its own: for every gate (of any
type) and wires whose input labels are 16 bytes, it returns a gate, and in each
of the four rows the XOR loop stays in range, yields a 16-byte key, and key
setup on that key succeeds. -/
theorem garbleGate_completes (A : AEAD) (gate : Gate) (in1 in2 out : Wire)
    (nonces : Fin 4 → Bytes)
    (h10 : in1.l0.length = 16) (h11 : in1.l1.length = 16)
    (h20 : in2.l0.length = 16) (h21 : in2.l1.length = 16) :
    (∃ g, garbleGate A gate in1 in2 out nonces = .ok g) ∧
    ∀ i, ∃ key, rowKey in1 in2 i = .ok key ∧ key.length = 16 ∧ newCipher key = .ok () ∧
      ∃ entry, enc A key (nonces i) (selOut gate.typ out i) = .ok entry := by
  obtain ⟨g, hg, _, _⟩ := garbleGate_ok A gate in1 in2 out nonces h10 h11 h20 h21
  refine ⟨⟨g, hg⟩, ?_⟩
  intro i
  obtain ⟨hk, hl⟩ := rowKey_ok in1 in2 i h10 h11 h20 h21
  exact ⟨_, hk, hl, newCipher_ok _ hl, _, enc_ok A _ _ _ hl⟩

/-- Witness of C8: the sample wires under the toy cipher, gate type `AND`. -/
theorem garbleGate_completes_witness :
    sampleIn1.l0.length = 16 ∧ sampleIn1.l1.length = 16 ∧
    sampleIn2b.l0.length = 16 ∧ sampleIn2b.l1.length = 16 ∧
    ((∃ g, garbleGate toyAEAD (emptyGate AND) sampleIn1 sampleIn2b sampleOut sampleNonces
        = .ok g) ∧
    ∀ i, ∃ key, rowKey sampleIn1 sampleIn2b i = .ok key ∧ key.length = 16 ∧
      newCipher key = .ok () ∧
      ∃ entry, enc toyAEAD key (sampleNonces i) (selOut (emptyGate AND).typ sampleOut i)
        = .ok entry) :=
  ⟨by decide, by decide, by decide, by decide,
    garbleGate_completes toyAEAD (emptyGate AND) sampleIn1 sampleIn2b sampleOut sampleNonces
      (by decide) (by decide) (by decide) (by decide)⟩

/-! ## Evaluation -/

theorem xorLabels_ok (l1 l2 : Bytes) (h1 : l1.length = 16) (h2 : l2.length = 16) :
    xorBytes LabelLength l1 l2 = .ok (xorZip l1 l2) ∧ (xorZip l1 l2).length = 16 := by
  constructor
  · have := xorBytes_full l1 l2 (by omega)
    rw [h1] at this
    exact this
  · rw [xorZip_length _ _ (by omega), h1]

theorem dec_cases (A : AEAD) (key ct : Bytes) (hk : key.length = 16) (hc : 12 ≤ ct.length) :
    (∃ p, dec A key ct = .ok (.ok p)) ∨ dec A key ct = .ok (.error .authFailed) := by
  rw [dec_eq A key ct hk hc]
  cases A.Open key (ct.take 12) (ct.drop 12) with
  | none => right; rfl
  | some p => left; exact ⟨p, rfl⟩

theorem dec_wrong_key (A : AEAD) (hwk : WrongKeyFails A)
    (k key nonce p : Bytes) (hk : k.length = 16) (hkey : key.length = 16)
    (hn : nonce.length = 12) (hne : key ≠ k) :
    dec A k (nonce ++ A.Seal key nonce p) = .ok (.error .authFailed) := by
  rw [dec_eq A k _ hk (by simp [hn])]
  have h1 : (nonce ++ A.Seal key nonce p).take 12 = nonce := by
    rw [← hn]; simp
  have h2 : (nonce ++ A.Seal key nonce p).drop 12 = A.Seal key nonce p := by
    rw [← hn]; simp
  rw [h1, h2, hwk key k nonce p hkey hk hn hne]

theorem fin4_forall (Q : Fin 4 → Prop) : (∀ i, Q i) ↔ Q 0 ∧ Q 1 ∧ Q 2 ∧ Q 3 := by
  constructor
  · intro h; exact ⟨h 0, h 1, h 2, h 3⟩
  · rintro ⟨h0, h1, h2, h3⟩ i
    fin_cases i <;> assumption

theorem evaluateGate_garbled (A : AEAD) (hso : SealOpen A) (hwk : WrongKeyFails A)
    (g : Gate) (K P N : Fin 4 → Bytes)
    (hK : ∀ i, (K i).length = 16) (hN : ∀ i, (N i).length = 12)
    (ht : ∀ i, g.table i = N i ++ A.Seal (K i) (N i) (P i))
    (l1 l2 : Bytes) (h1 : l1.length = 16) (h2 : l2.length = 16) :
    evaluateGate A g l1 l2 =
      .ok (if xorZip l1 l2 = K 0 then .ok (P 0)
        else if xorZip l1 l2 = K 1 then .ok (P 1)
        else if xorZip l1 l2 = K 2 then .ok (P 2)
        else if xorZip l1 l2 = K 3 then .ok (P 3)
        else .error .evalFailed) := by
  obtain ⟨hx, hl⟩ := xorLabels_ok l1 l2 h1 h2
  have hd : ∀ i, dec A (xorZip l1 l2) (g.table i) =
      .ok (if xorZip l1 l2 = K i then .ok (P i) else .error .authFailed) := by
    intro i
    rw [ht i]
    exact dec_sealed A hso hwk _ _ _ _ hl (hK i) (hN i)
  simp only [evaluateGate, hx, evalLoop, hd]
  split_ifs <;> rfl

/-- C3. `evaluateGate` fails exactly when no entry authenticates: for a gate
whose four entries have at least 12 bytes and 16-byte `l1`, `l2`, the key is
`l1 XOR l2`, the result is the evaluation-failed error if and only if `dec`
under that key fails on every entry, and otherwise a plaintext is returned
with no error. -/
theorem evaluateGate_fails_iff (A : AEAD) (gate : Gate) (l1 l2 : Bytes)
    (h1 : l1.length = 16) (h2 : l2.length = 16)
    (ht : ∀ i, 12 ≤ (gate.table i).length) :
    xorBytes LabelLength l1 l2 = .ok (xorZip l1 l2) ∧
    (evaluateGate A gate l1 l2 = .ok (.error .evalFailed) ↔
      ∀ i, dec A (xorZip l1 l2) (gate.table i) = .ok (.error .authFailed)) ∧
    ((¬ ∀ i, dec A (xorZip l1 l2) (gate.table i) = .ok (.error .authFailed)) →
      ∃ p, evaluateGate A gate l1 l2 = .ok (.ok p)) := by
  obtain ⟨hx, hl⟩ := xorLabels_ok l1 l2 h1 h2
  refine ⟨hx, ?_⟩
  rw [fin4_forall]
  simp only [evaluateGate, hx, evalLoop]
  rcases dec_cases A (xorZip l1 l2) (gate.table 0) hl (ht 0) with ⟨p0, e0⟩ | e0 <;>
  rcases dec_cases A (xorZip l1 l2) (gate.table 1) hl (ht 1) with ⟨p1, e1⟩ | e1 <;>
  rcases dec_cases A (xorZip l1 l2) (gate.table 2) hl (ht 2) with ⟨p2, e2⟩ | e2 <;>
  rcases dec_cases A (xorZip l1 l2) (gate.table 3) hl (ht 3) with ⟨p3, e3⟩ | e3 <;>
  simp [e0, e1, e2, e3]

theorem garbleEval_eq (A : AEAD) (gate : Gate) (in1 in2 out : Wire) (nonces : Fin 4 → Bytes)
    (l1 l2 : Bytes)
    (h10 : in1.l0.length = 16) (h11 : in1.l1.length = 16)
    (h20 : in2.l0.length = 16) (h21 : in2.l1.length = 16) :
    ∃ g, garbleGate A gate in1 in2 out nonces = .ok g ∧
      garbleEval A gate in1 in2 out nonces l1 l2 = evaluateGate A g l1 l2 ∧
      ∀ i, g.table i =
        nonces i ++ A.Seal (xorZip (selIn1 in1 i) (selIn2 in2 i)) (nonces i)
          (selOut gate.typ out i) := by
  obtain ⟨g, hg, _, htab⟩ := garbleGate_ok A gate in1 in2 out nonces h10 h11 h20 h21
  exact ⟨g, hg, by simp [garbleEval, hg], htab⟩

/-- C2. Non-matching label rejection: when opening under a key other than the
sealing key fails, a gate garbled from 16-byte labels rejects every pair of
16-byte labels whose byte-wise XOR differs from each of the four row keys:
`evaluateGate` on the garbled gate returns the evaluation-failed error and no
label. -/
theorem evaluateGate_rejects_nonmatching (A : AEAD) (hwk : WrongKeyFails A)
    (gate : Gate) (in1 in2 out : Wire) (nonces : Fin 4 → Bytes) (l1 l2 : Bytes)
    (h10 : in1.l0.length = 16) (h11 : in1.l1.length = 16)
    (h20 : in2.l0.length = 16) (h21 : in2.l1.length = 16)
    (hN : ∀ i, (nonces i).length = 12)
    (h1 : l1.length = 16) (h2 : l2.length = 16)
    (hne : ∀ i, rowKey in1 in2 i ≠ xorBytes LabelLength l1 l2) :
    garbleEval A gate in1 in2 out nonces l1 l2 = .ok (.error .evalFailed) := by
  obtain ⟨hx, hl⟩ := xorLabels_ok l1 l2 h1 h2
  obtain ⟨g, _, hge, htab⟩ := garbleEval_eq A gate in1 in2 out nonces l1 l2 h10 h11 h20 h21
  rw [hge]
  have hd : ∀ i, dec A (xorZip l1 l2) (g.table i) = .ok (.error .authFailed) := by
    intro i
    obtain ⟨hk, hkl⟩ := rowKey_ok in1 in2 i h10 h11 h20 h21
    rw [htab i]
    apply dec_wrong_key A hwk _ _ _ _ hl hkl (hN i)
    intro e
    exact hne i (by rw [hk, hx, e])
  simp [evaluateGate, hx, evalLoop, hd]

/-- Witness of C2: a gate garbled from the sample wires, evaluated on two labels
of another wire pair (`64…64` and `c8…c8`). -/
theorem evaluateGate_rejects_nonmatching_witness :
    WrongKeyFails toyAEAD ∧
    (∀ i, rowKey sampleIn1 sampleIn2b i ≠
      xorBytes LabelLength (List.replicate 16 100) (List.replicate 16 200)) ∧
    garbleEval toyAEAD (emptyGate OR) sampleIn1 sampleIn2b sampleOut sampleNonces
      (List.replicate 16 100) (List.replicate 16 200) = .ok (.error .evalFailed) :=
  ⟨toyAEAD_wrongKeyFails, by decide,
    evaluateGate_rejects_nonmatching toyAEAD toyAEAD_wrongKeyFails (emptyGate OR)
      sampleIn1 sampleIn2b sampleOut sampleNonces (List.replicate 16 100)
      (List.replicate 16 200) (by decide) (by decide) (by decide) (by decide) (by decide)
      (by decide) (by decide) (by decide)⟩

/-- Witness of C3 on the garbled sample gate: the labels of input (1, 0) open an
entry, so the evaluation does not fail. -/
theorem evaluateGate_fails_iff_witness :
    sampleIn1.l1.length = 16 ∧ sampleIn2b.l0.length = 16 ∧
    (∀ i, 12 ≤ (sampleGate.table i).length) ∧
    (xorBytes LabelLength sampleIn1.l1 sampleIn2b.l0 =
        .ok (xorZip sampleIn1.l1 sampleIn2b.l0) ∧
    (evaluateGate toyAEAD sampleGate sampleIn1.l1 sampleIn2b.l0 = .ok (.error .evalFailed) ↔
      ∀ i, dec toyAEAD (xorZip sampleIn1.l1 sampleIn2b.l0) (sampleGate.table i) =
        .ok (.error .authFailed)) ∧
    ((¬ ∀ i, dec toyAEAD (xorZip sampleIn1.l1 sampleIn2b.l0) (sampleGate.table i) =
        .ok (.error .authFailed)) →
      ∃ p, evaluateGate toyAEAD sampleGate sampleIn1.l1 sampleIn2b.l0 = .ok (.ok p))) :=
  ⟨by decide, by decide, by decide,
    evaluateGate_fails_iff toyAEAD sampleGate sampleIn1.l1 sampleIn2b.l0
      (by decide) (by decide) (by decide)⟩

/-! ## Round trip through garbling and evaluation -/

theorem garbleEval_firstMatch (A : AEAD) (hso : SealOpen A) (hwk : WrongKeyFails A)
    (gate : Gate) (in1 in2 out : Wire) (nonces : Fin 4 → Bytes) (l1 l2 : Bytes)
    (h10 : in1.l0.length = 16) (h11 : in1.l1.length = 16)
    (h20 : in2.l0.length = 16) (h21 : in2.l1.length = 16)
    (hN : ∀ i, (nonces i).length = 12)
    (h1 : l1.length = 16) (h2 : l2.length = 16) :
    garbleEval A gate in1 in2 out nonces l1 l2 =
      .ok (if xorZip l1 l2 = xorZip in1.l0 in2.l0 then .ok (selOut gate.typ out 0)
        else if xorZip l1 l2 = xorZip in1.l1 in2.l0 then .ok (selOut gate.typ out 1)
        else if xorZip l1 l2 = xorZip in1.l0 in2.l1 then .ok (selOut gate.typ out 2)
        else if xorZip l1 l2 = xorZip in1.l1 in2.l1 then .ok (selOut gate.typ out 3)
        else .error .evalFailed) := by
  obtain ⟨g, _, hge, htab⟩ := garbleEval_eq A gate in1 in2 out nonces l1 l2 h10 h11 h20 h21
  rw [hge]
  have hK : ∀ i, (xorZip (selIn1 in1 i) (selIn2 in2 i)).length = 16 :=
    fun i => (rowKey_ok in1 in2 i h10 h11 h20 h21).2
  exact evaluateGate_garbled A hso hwk g
    (fun i => xorZip (selIn1 in1 i) (selIn2 in2 i)) (fun i => selOut gate.typ out i) nonces
    hK hN htab l1 l2 h1 h2

theorem xorZip_comm (a b : Bytes) : xorZip a b = xorZip b a := by
  induction a generalizing b with
  | nil => cases b <;> simp [xorZip]
  | cons x xs ih =>
    cases b with
    | nil => simp [xorZip]
    | cons y ys =>
      have := ih ys
      simp only [xorZip] at this
      simp only [xorZip, List.zipWith_cons_cons, List.cons.injEq]
      exact ⟨Nat.xor_comm x y, this⟩

theorem rowKeys_distinct (in1 in2 : Wire)
    (h10 : in1.l0.length = 16) (h11 : in1.l1.length = 16)
    (h20 : in2.l0.length = 16) (h21 : in2.l1.length = 16)
    (hd1 : in1.l0 ≠ in1.l1) (hd2 : in2.l0 ≠ in2.l1) :
    xorZip in1.l1 in2.l0 ≠ xorZip in1.l0 in2.l0 ∧
    xorZip in1.l0 in2.l1 ≠ xorZip in1.l0 in2.l0 ∧
    xorZip in1.l1 in2.l1 ≠ xorZip in1.l1 in2.l0 ∧
    xorZip in1.l1 in2.l1 ≠ xorZip in1.l0 in2.l1 ∧
    (xorZip in1.l1 in2.l1 = xorZip in1.l0 in2.l0 ↔
      xorZip in1.l0 in1.l1 = xorZip in2.l0 in2.l1) ∧
    (xorZip in1.l0 in2.l1 = xorZip in1.l1 in2.l0 ↔
      xorZip in1.l0 in1.l1 = xorZip in2.l0 in2.l1) := by
  refine ⟨?_, ?_, ?_, ?_, ?_, ?_⟩
  · rw [Ne, xorZip_left_inj _ _ _ (by omega) (by omega)]
    exact fun e => hd1 e.symm
  · rw [Ne, xorZip_right_inj _ _ _ (by omega) (by omega)]
    exact fun e => hd2 e.symm
  · rw [Ne, xorZip_right_inj _ _ _ (by omega) (by omega)]
    exact fun e => hd2 e.symm
  · rw [Ne, xorZip_left_inj _ _ _ (by omega) (by omega)]
    exact fun e => hd1 e.symm
  · rw [eq_comm, xorZip_cross _ _ _ _ (by omega) (by omega) (by omega)]
  · rw [xorZip_cross _ _ _ _ (by omega) (by omega) (by omega), xorZip_comm in2.l1 in2.l0]

theorem labelFor_length (w : Wire) (b : Bool) (h0 : w.l0.length = 16) (h1 : w.l1.length = 16) :
    (w.labelFor b).length = 16 := by
  cases b <;> simp [Wire.labelFor, h0, h1]

/-- C1 (counterexample). Under the toy cipher, which opens under the sealing key
and fails under any other, the wires `sampleIn1`, `sampleIn2`, `sampleOut` have
16-byte labels and each wire's two labels differ, yet the garbled `AND` gate
evaluated on the labels of input (1, 1) returns `sampleOut.l0`, which is not
the label of `truth(AND, 1, 1)`; the same happens for `OR`. -/
theorem roundtrip_fails_on_equal_offsets :
    SealOpen toyAEAD ∧ WrongKeyFails toyAEAD ∧
    sampleIn1.l0 ≠ sampleIn1.l1 ∧ sampleIn2.l0 ≠ sampleIn2.l1 ∧
    sampleOut.l0 ≠ sampleOut.l1 ∧
    (∀ w ∈ [sampleIn1, sampleIn2, sampleOut], w.l0.length = 16 ∧ w.l1.length = 16) ∧
    (∀ i, (sampleNonces i).length = 12) ∧
    garbleEval toyAEAD (emptyGate AND) sampleIn1 sampleIn2 sampleOut sampleNonces
      (sampleIn1.labelFor true) (sampleIn2.labelFor true) = .ok (.ok sampleOut.l0) ∧
    sampleOut.l0 ≠ sampleOut.labelFor (truth AND true true) ∧
    garbleEval toyAEAD (emptyGate OR) sampleIn1 sampleIn2 sampleOut sampleNonces
      (sampleIn1.labelFor true) (sampleIn2.labelFor true) = .ok (.ok sampleOut.l0) ∧
    sampleOut.l0 ≠ sampleOut.labelFor (truth OR true true) :=
  ⟨toyAEAD_sealOpen, toyAEAD_wrongKeyFails, by decide, by decide, by decide, by decide,
    by decide, by decide, by decide, by decide, by decide⟩

/-- C1 (amended). Round trip under an ideal cipher: for a gate of type AND, OR
or XOR, input wires with 16-byte labels whose two labels differ, any 12-byte
nonces and any input bits `(b1, b2)`, garbling and then evaluating on
`in1.label_for(b1)`, `in2.label_for(b2)` returns `out.label_for(truth(typ, b1, b2))`,
provided the type is XOR, or the input is not (1, 1), or
`in1.l0 XOR in1.l1` differs from `in2.l0 XOR in2.l1`. -/
theorem garble_evaluate_roundtrip (A : AEAD) (hso : SealOpen A) (hwk : WrongKeyFails A)
    (gate : Gate) (in1 in2 out : Wire) (nonces : Fin 4 → Bytes) (b1 b2 : Bool)
    (htyp : gate.typ = AND ∨ gate.typ = OR ∨ gate.typ = XOR)
    (h10 : in1.l0.length = 16) (h11 : in1.l1.length = 16)
    (h20 : in2.l0.length = 16) (h21 : in2.l1.length = 16)
    (hN : ∀ i, (nonces i).length = 12)
    (hd1 : in1.l0 ≠ in1.l1) (hd2 : in2.l0 ≠ in2.l1)
    (hcol : gate.typ = XOR ∨ b1 = false ∨ b2 = false ∨
      xorZip in1.l0 in1.l1 ≠ xorZip in2.l0 in2.l1) :
    garbleEval A gate in1 in2 out nonces (in1.labelFor b1) (in2.labelFor b2) =
      .ok (.ok (out.labelFor (truth gate.typ b1 b2))) := by
  rw [garbleEval_firstMatch A hso hwk gate in1 in2 out nonces _ _ h10 h11 h20 h21 hN
    (labelFor_length in1 b1 h10 h11) (labelFor_length in2 b2 h20 h21)]
  obtain ⟨n10, n20, n31, n32, e30, e21⟩ := rowKeys_distinct in1 in2 h10 h11 h20 h21 hd1 hd2
  by_cases hD : xorZip in1.l0 in1.l1 = xorZip in2.l0 in2.l1
  · have k30 := e30.mpr hD
    have k21 := e21.mpr hD
    rcases htyp with ht | ht | ht <;> cases b1 <;> cases b2 <;>
      simp_all [Wire.labelFor, truth, selOut, AND, OR, XOR]
  · have k30 : xorZip in1.l1 in2.l1 ≠ xorZip in1.l0 in2.l0 := fun e => hD (e30.mp e)
    have k21 : xorZip in1.l0 in2.l1 ≠ xorZip in1.l1 in2.l0 := fun e => hD (e21.mp e)
    rcases htyp with ht | ht | ht <;> cases b1 <;> cases b2 <;>
      simp [Wire.labelFor, truth, selOut, AND, OR, XOR, ht, n10, n20, n31, n32, k30, k21]

/-- Witness of the amended C1: an `AND` gate over `sampleIn1` and `sampleIn2b`,
whose label offsets differ, evaluated on the labels of input (1, 1). -/
theorem garble_evaluate_roundtrip_witness :
    SealOpen toyAEAD ∧ WrongKeyFails toyAEAD ∧
    sampleIn1.l0 ≠ sampleIn1.l1 ∧ sampleIn2b.l0 ≠ sampleIn2b.l1 ∧
    ((emptyGate AND).typ = XOR ∨ true = false ∨ true = false ∨
      xorZip sampleIn1.l0 sampleIn1.l1 ≠ xorZip sampleIn2b.l0 sampleIn2b.l1) ∧
    garbleEval toyAEAD (emptyGate AND) sampleIn1 sampleIn2b sampleOut sampleNonces
      (sampleIn1.labelFor true) (sampleIn2b.labelFor true) =
      .ok (.ok (sampleOut.labelFor (truth (emptyGate AND).typ true true))) :=
  ⟨toyAEAD_sealOpen, toyAEAD_wrongKeyFails, by decide, by decide, by decide,
    garble_evaluate_roundtrip toyAEAD toyAEAD_sealOpen toyAEAD_wrongKeyFails (emptyGate AND)
      sampleIn1 sampleIn2b sampleOut sampleNonces true true (by decide) (by decide)
      (by decide) (by decide) (by decide) (by decide) (by decide) (by decide) (by decide)⟩

/-- Under any ideal cipher, when the two input wires have the same label offset
(`in1.l0 XOR in1.l1 = in2.l0 XOR in2.l1`), rows 0 and 3 share their key and the
labels of input (1, 1) open row 0 first: an AND or OR gate returns `out.l0`. -/
theorem garbleEval_equal_offsets (A : AEAD) (hso : SealOpen A) (hwk : WrongKeyFails A)
    (gate : Gate) (in1 in2 out : Wire) (nonces : Fin 4 → Bytes)
    (htyp : gate.typ = AND ∨ gate.typ = OR)
    (h10 : in1.l0.length = 16) (h11 : in1.l1.length = 16)
    (h20 : in2.l0.length = 16) (h21 : in2.l1.length = 16)
    (hN : ∀ i, (nonces i).length = 12)
    (hd1 : in1.l0 ≠ in1.l1) (hd2 : in2.l0 ≠ in2.l1)
    (hD : xorZip in1.l0 in1.l1 = xorZip in2.l0 in2.l1) :
    garbleEval A gate in1 in2 out nonces in1.l1 in2.l1 = .ok (.ok out.l0) := by
  rw [garbleEval_firstMatch A hso hwk gate in1 in2 out nonces _ _ h10 h11 h20 h21 hN h11 h21]
  obtain ⟨_, _, _, _, e30, _⟩ := rowKeys_distinct in1 in2 h10 h11 h20 h21 hd1 hd2
  have k30 := e30.mpr hD
  rcases htyp with ht | ht <;> simp [selOut, AND, OR, ht, k30]

/-- C5. XOR scenario for all labels: under an ideal cipher, for input wires with
16-byte labels whose two labels differ and a garbled XOR gate, evaluating on
`(in1.l1, in2.l1)` returns `out.l0` and evaluating on `(in1.l0, in2.l1)`
returns `out.l1`. -/
theorem xor_gate_scenario (A : AEAD) (hso : SealOpen A) (hwk : WrongKeyFails A)
    (gate : Gate) (in1 in2 out : Wire) (nonces : Fin 4 → Bytes)
    (htyp : gate.typ = XOR)
    (h10 : in1.l0.length = 16) (h11 : in1.l1.length = 16)
    (h20 : in2.l0.length = 16) (h21 : in2.l1.length = 16)
    (hN : ∀ i, (nonces i).length = 12)
    (hd1 : in1.l0 ≠ in1.l1) (hd2 : in2.l0 ≠ in2.l1) :
    garbleEval A gate in1 in2 out nonces in1.l1 in2.l1 = .ok (.ok out.l0) ∧
    garbleEval A gate in1 in2 out nonces in1.l0 in2.l1 = .ok (.ok out.l1) := by
  rw [garbleEval_firstMatch A hso hwk gate in1 in2 out nonces _ _ h10 h11 h20 h21 hN h11 h21,
    garbleEval_firstMatch A hso hwk gate in1 in2 out nonces _ _ h10 h11 h20 h21 hN h10 h21]
  obtain ⟨n10, n20, n31, n32, e30, e21⟩ := rowKeys_distinct in1 in2 h10 h11 h20 h21 hd1 hd2
  by_cases hD : xorZip in1.l0 in1.l1 = xorZip in2.l0 in2.l1
  · have k30 := e30.mpr hD
    have k21 := e21.mpr hD
    simp [selOut, AND, OR, XOR, htyp, n10, n20, k30, k21]
  · have k30 : xorZip in1.l1 in2.l1 ≠ xorZip in1.l0 in2.l0 := fun e => hD (e30.mp e)
    have k21 : xorZip in1.l0 in2.l1 ≠ xorZip in1.l1 in2.l0 := fun e => hD (e21.mp e)
    simp [selOut, AND, OR, XOR, htyp, n10, n20, n31, n32, k30, k21]

/-- Witness of C5: an `XOR` gate over `sampleIn1` and `sampleIn2`, two wires with
the same label offset, so that two rows share a key. -/
theorem xor_gate_scenario_witness :
    SealOpen toyAEAD ∧ WrongKeyFails toyAEAD ∧ (emptyGate XOR).typ = XOR ∧
    sampleIn1.l0 ≠ sampleIn1.l1 ∧ sampleIn2.l0 ≠ sampleIn2.l1 ∧
    garbleEval toyAEAD (emptyGate XOR) sampleIn1 sampleIn2 sampleOut sampleNonces
      sampleIn1.l1 sampleIn2.l1 = .ok (.ok sampleOut.l0) ∧
    garbleEval toyAEAD (emptyGate XOR) sampleIn1 sampleIn2 sampleOut sampleNonces
      sampleIn1.l0 sampleIn2.l1 = .ok (.ok sampleOut.l1) :=
  ⟨toyAEAD_sealOpen, toyAEAD_wrongKeyFails, by decide, by decide, by decide,
    xor_gate_scenario toyAEAD toyAEAD_sealOpen toyAEAD_wrongKeyFails (emptyGate XOR)
      sampleIn1 sampleIn2 sampleOut sampleNonces (by decide) (by decide) (by decide)
      (by decide) (by decide) (by decide) (by decide) (by decide)⟩

/-! ## Table index layout -/

/-- The layout `garbleGate` uses: in row `i` the label of wire 1 is selected by
bit 0 of `i` and the label of wire 2 by bit 1 of `i`. -/
theorem rowKey_layout (in1 in2 : Wire) (i : Fin 4)
    (h10 : in1.l0.length = 16) (h11 : in1.l1.length = 16)
    (h20 : in2.l0.length = 16) (h21 : in2.l1.length = 16) :
    rowKey in1 in2 i =
      .ok (xorZip (in1.labelFor (i.val % 2 == 1)) (in2.labelFor (i.val / 2 == 1))) := by
  rw [(rowKey_ok in1 in2 i h10 h11 h20 h21).1]
  fin_cases i <;> simp [selIn1, selIn2, Wire.labelFor]

/-- C10 (failing input). For the sample wires, the key of row 1 is
`in1.l1 XOR in2.l0`, not the `in1.l0 XOR in2.l1` of the layout
`(in1_bit<<1) | in2_bit`, and the key of row 2 is `in1.l0 XOR in2.l1`, not
`in1.l1 XOR in2.l0`; the entry stored at index 1 is sealed under
`in1.l1 XOR in2.l0`, while `main` feeds `(in1.l0, in2.l1)` as input 1. -/
theorem rowKey_rows_one_and_two_swapped :
    rowKey sampleIn1 sampleIn2b 1 = .ok (xorZip sampleIn1.l1 sampleIn2b.l0) ∧
    rowKey sampleIn1 sampleIn2b 1 ≠ .ok (xorZip sampleIn1.l0 sampleIn2b.l1) ∧
    rowKey sampleIn1 sampleIn2b 2 = .ok (xorZip sampleIn1.l0 sampleIn2b.l1) ∧
    rowKey sampleIn1 sampleIn2b 2 ≠ .ok (xorZip sampleIn1.l1 sampleIn2b.l0) ∧
    (garbleGate toyAEAD (emptyGate AND) sampleIn1 sampleIn2b sampleOut sampleNonces).map
        (fun g => g.table 1) =
      enc toyAEAD (xorZip sampleIn1.l1 sampleIn2b.l0) (sampleNonces 1) sampleOut.l0 ∧
    mainInputs sampleIn1 sampleIn2b 1 = (sampleIn1.l0, sampleIn2b.l1) :=
  ⟨by decide, by decide, by decide, by decide, by decide, by decide⟩

/-! ## First authenticating entry -/

theorem evalLoop_first (A : AEAD) (key : Bytes) (table : Fin 4 → Bytes) (i : Fin 4) (p : Bytes)
    (hi : dec A key (table i) = .ok (.ok p))
    (hprev : ∀ j, j < i → dec A key (table j) = .ok (.error .authFailed)) :
    evalLoop A key table [0, 1, 2, 3] = .ok (.ok p) := by
  fin_cases i
  · simp only [evalLoop]
    simp at hi
    rw [hi]
  · have h0 := hprev 0 (by decide)
    simp at hi
    simp only [evalLoop, h0, hi]
  · have h0 := hprev 0 (by decide)
    have h1 := hprev 1 (by decide)
    simp at hi
    simp only [evalLoop, h0, h1, hi]
  · have h0 := hprev 0 (by decide)
    have h1 := hprev 1 (by decide)
    have h2 := hprev 2 (by decide)
    simp at hi
    simp only [evalLoop, h0, h1, h2, hi]

theorem dec_least_success (A : AEAD) (key : Bytes) (table : Fin 4 → Bytes)
    (hk : key.length = 16) (ht : ∀ i, 12 ≤ (table i).length)
    (hex : ∃ i q, dec A key (table i) = .ok (.ok q)) :
    ∃ i p, dec A key (table i) = .ok (.ok p) ∧
      ∀ j, j < i → dec A key (table j) = .ok (.error .authFailed) := by
  rcases dec_cases A key (table 0) hk (ht 0) with ⟨p0, e0⟩ | e0
  · exact ⟨0, p0, e0, fun j hj => absurd hj (by omega)⟩
  rcases dec_cases A key (table 1) hk (ht 1) with ⟨p1, e1⟩ | e1
  · refine ⟨1, p1, e1, fun j hj => ?_⟩
    fin_cases j <;> first | exact e0 | exact absurd hj (by decide)
  rcases dec_cases A key (table 2) hk (ht 2) with ⟨p2, e2⟩ | e2
  · refine ⟨2, p2, e2, fun j hj => ?_⟩
    fin_cases j <;> first | exact e0 | exact e1 | exact absurd hj (by decide)
  rcases dec_cases A key (table 3) hk (ht 3) with ⟨p3, e3⟩ | e3
  · refine ⟨3, p3, e3, fun j hj => ?_⟩
    fin_cases j <;> first | exact e0 | exact e1 | exact e2 | exact absurd hj (by decide)
  obtain ⟨i, q, hq⟩ := hex
  fin_cases i <;> simp_all

/-- C11. `evaluateGate` returns the first authenticating entry in index order:
for a gate whose entries have at least 12 bytes and 16-byte `l1`, `l2`, with
key `l1 XOR l2`, whenever `dec` succeeds on entry `i` and fails on every entry
before it, the result is the plaintext of entry `i`, whatever the later
entries do; and if some entry opens at all, such a smallest index exists. -/
theorem evaluateGate_first_match (A : AEAD) (gate : Gate) (l1 l2 : Bytes)
    (h1 : l1.length = 16) (h2 : l2.length = 16)
    (ht : ∀ i, 12 ≤ (gate.table i).length) :
    xorBytes LabelLength l1 l2 = .ok (xorZip l1 l2) ∧
    (∀ i p, dec A (xorZip l1 l2) (gate.table i) = .ok (.ok p) →
      (∀ j, j < i → dec A (xorZip l1 l2) (gate.table j) = .ok (.error .authFailed)) →
      evaluateGate A gate l1 l2 = .ok (.ok p)) ∧
    ((∃ i q, dec A (xorZip l1 l2) (gate.table i) = .ok (.ok q)) →
      ∃ i p, dec A (xorZip l1 l2) (gate.table i) = .ok (.ok p) ∧
        (∀ j, j < i → dec A (xorZip l1 l2) (gate.table j) = .ok (.error .authFailed)) ∧
        evaluateGate A gate l1 l2 = .ok (.ok p)) := by
  obtain ⟨hx, hl⟩ := xorLabels_ok l1 l2 h1 h2
  have hfirst : ∀ i p, dec A (xorZip l1 l2) (gate.table i) = .ok (.ok p) →
      (∀ j, j < i → dec A (xorZip l1 l2) (gate.table j) = .ok (.error .authFailed)) →
      evaluateGate A gate l1 l2 = .ok (.ok p) := by
    intro i p hi hprev
    simp only [evaluateGate, hx]
    exact evalLoop_first A _ _ i p hi hprev
  refine ⟨hx, hfirst, ?_⟩
  intro hex
  obtain ⟨i, p, hi, hprev⟩ := dec_least_success A _ _ hl ht hex
  exact ⟨i, p, hi, hprev, hfirst i p hi hprev⟩

/-- Witness of C11 on `sampleGateShared`: the labels of input (1, 1) open both
entry 0 and entry 3, and the result is the plaintext of entry 0. -/
theorem evaluateGate_first_match_witness :
    sampleIn1.l1.length = 16 ∧ sampleIn2.l1.length = 16 ∧
    (∀ i, 12 ≤ (sampleGateShared.table i).length) ∧
    dec toyAEAD (xorZip sampleIn1.l1 sampleIn2.l1) (sampleGateShared.table 0) =
      .ok (.ok sampleOut.l0) ∧
    dec toyAEAD (xorZip sampleIn1.l1 sampleIn2.l1) (sampleGateShared.table 3) =
      .ok (.ok sampleOut.l1) ∧
    (xorBytes LabelLength sampleIn1.l1 sampleIn2.l1 =
        .ok (xorZip sampleIn1.l1 sampleIn2.l1) ∧
    (∀ i p, dec toyAEAD (xorZip sampleIn1.l1 sampleIn2.l1) (sampleGateShared.table i) =
        .ok (.ok p) →
      (∀ j, j < i → dec toyAEAD (xorZip sampleIn1.l1 sampleIn2.l1)
        (sampleGateShared.table j) = .ok (.error .authFailed)) →
      evaluateGate toyAEAD sampleGateShared sampleIn1.l1 sampleIn2.l1 = .ok (.ok p)) ∧
    ((∃ i q, dec toyAEAD (xorZip sampleIn1.l1 sampleIn2.l1) (sampleGateShared.table i) =
        .ok (.ok q)) →
      ∃ i p, dec toyAEAD (xorZip sampleIn1.l1 sampleIn2.l1) (sampleGateShared.table i) =
          .ok (.ok p) ∧
        (∀ j, j < i → dec toyAEAD (xorZip sampleIn1.l1 sampleIn2.l1)
          (sampleGateShared.table j) = .ok (.error .authFailed)) ∧
        evaluateGate toyAEAD sampleGateShared sampleIn1.l1 sampleIn2.l1 = .ok (.ok p))) :=
  ⟨by decide, by decide, by decide, by decide, by decide,
    evaluateGate_first_match toyAEAD sampleGateShared sampleIn1.l1 sampleIn2.l1
      (by decide) (by decide) (by decide)⟩

/-! ## Row contents -/

theorem garbleRow_inv (A : AEAD) (in1 in2 out : Wire) (nonces : Fin 4 → Bytes)
    (gate g : Gate) (i : Fin 4)
    (h : garbleRow A in1 in2 out nonces gate i = .ok g) :
    g.typ = gate.typ ∧
    (∀ j, j ≠ i → g.table j = gate.table j) ∧
    ∃ key, rowKey in1 in2 i = .ok key ∧
      enc A key (nonces i) (selOut gate.typ out i) = .ok (g.table i) := by
  unfold garbleRow at h
  cases hk : rowKey in1 in2 i with
  | error e => simp [hk, bind, Except.bind] at h
  | ok key =>
    cases he : enc A key (nonces i) (selOut gate.typ out i) with
    | error e => simp [hk, he, bind, Except.bind] at h
    | ok entry =>
      simp only [hk, he, bind, Except.bind, pure, Except.pure, Except.ok.injEq] at h
      subst h
      refine ⟨rfl, ?_, key, rfl, ?_⟩
      · intro j hj
        simp [Function.update, hj]
      · simpa [Function.update] using he

theorem garbleGate_inv (A : AEAD) (gate g : Gate) (in1 in2 out : Wire)
    (nonces : Fin 4 → Bytes)
    (h : garbleGate A gate in1 in2 out nonces = .ok g) :
    g.typ = gate.typ ∧
    ∀ i, ∃ key, rowKey in1 in2 i = .ok key ∧
      enc A key (nonces i) (selOut gate.typ out i) = .ok (g.table i) := by
  simp only [garbleGate, List.foldlM_cons, List.foldlM_nil, bind, Except.bind, pure,
    Except.pure] at h
  cases h0 : garbleRow A in1 in2 out nonces gate 0 with
  | error e => simp [h0] at h
  | ok g0 =>
    simp only [h0] at h
    cases h1 : garbleRow A in1 in2 out nonces g0 1 with
    | error e => simp [h1] at h
    | ok g1 =>
      simp only [h1] at h
      cases h2 : garbleRow A in1 in2 out nonces g1 2 with
      | error e => simp [h2] at h
      | ok g2 =>
        simp only [h2] at h
        cases h3 : garbleRow A in1 in2 out nonces g2 3 with
        | error e => simp [h3] at h
        | ok g3 =>
          simp only [h3, Except.ok.injEq] at h
          subst h
          obtain ⟨t0, _, k0, r0, e0⟩ := garbleRow_inv A in1 in2 out nonces gate g0 0 h0
          obtain ⟨t1, s1, k1, r1, e1⟩ := garbleRow_inv A in1 in2 out nonces g0 g1 1 h1
          obtain ⟨t2, s2, k2, r2, e2⟩ := garbleRow_inv A in1 in2 out nonces g1 g2 2 h2
          obtain ⟨t3, s3, k3, r3, e3⟩ := garbleRow_inv A in1 in2 out nonces g2 g3 3 h3
          refine ⟨by rw [t3, t2, t1, t0], ?_⟩
          intro i
          fin_cases i
          · refine ⟨k0, r0, ?_⟩
            show enc A k0 (nonces 0) (selOut gate.typ out 0) = .ok (g3.table 0)
            rw [s3 0 (by decide), s2 0 (by decide), s1 0 (by decide)]
            exact e0
          · refine ⟨k1, r1, ?_⟩
            show enc A k1 (nonces 1) (selOut gate.typ out 1) = .ok (g3.table 1)
            rw [s3 1 (by decide), s2 1 (by decide), ← t0]
            exact e1
          · refine ⟨k2, r2, ?_⟩
            show enc A k2 (nonces 2) (selOut gate.typ out 2) = .ok (g3.table 2)
            rw [s3 2 (by decide), ← t0, ← t1]
            exact e2
          · refine ⟨k3, r3, ?_⟩
            show enc A k3 (nonces 3) (selOut gate.typ out 3) = .ok (g3.table 3)
            rw [← t0, ← t1, ← t2]
            exact e3

theorem selOut_eq_truth (typ : GateType) (out : Wire) (i : Fin 4)
    (htyp : typ = AND ∨ typ = OR ∨ typ = XOR) :
    selOut typ out i = out.labelFor (truth typ (bit1 i) (bit0 i)) := by
  rcases htyp with h | h | h <;> subst h <;> fin_cases i <;>
    simp [selOut, truth, Wire.labelFor, bit0, bit1, AND, OR, XOR]

/-- C12. Row plaintext follows the gate semantics: for a gate of type AND, OR
or XOR and every index `i`, the plaintext `garbleGate` selects for row `i` is
`out.l1` when `truth(typ, bit1 of i, bit0 of i)` is 1 and `out.l0` otherwise,
and that is what `table[i]` of the returned gate encrypts; with 16-byte input
labels the gate is returned. -/
theorem row_plaintext_follows_truth (A : AEAD) (gate : Gate) (in1 in2 out : Wire)
    (nonces : Fin 4 → Bytes) (i : Fin 4)
    (htyp : gate.typ = AND ∨ gate.typ = OR ∨ gate.typ = XOR) :
    selOut gate.typ out i = (if truth gate.typ (bit1 i) (bit0 i) then out.l1 else out.l0) ∧
    (∀ g, garbleGate A gate in1 in2 out nonces = .ok g →
      ∃ key, rowKey in1 in2 i = .ok key ∧
        enc A key (nonces i)
          (if truth gate.typ (bit1 i) (bit0 i) then out.l1 else out.l0) = .ok (g.table i)) ∧
    (in1.l0.length = 16 → in1.l1.length = 16 → in2.l0.length = 16 → in2.l1.length = 16 →
      ∃ g, garbleGate A gate in1 in2 out nonces = .ok g) := by
  have hs : selOut gate.typ out i =
      (if truth gate.typ (bit1 i) (bit0 i) then out.l1 else out.l0) := by
    rw [selOut_eq_truth gate.typ out i htyp]
    rfl
  refine ⟨hs, ?_, ?_⟩
  · intro g hg
    obtain ⟨_, hrows⟩ := garbleGate_inv A gate g in1 in2 out nonces hg
    obtain ⟨key, hk, he⟩ := hrows i
    exact ⟨key, hk, by rw [← hs]; exact he⟩
  · intro h10 h11 h20 h21
    obtain ⟨g, hg, _⟩ := garbleGate_ok A gate in1 in2 out nonces h10 h11 h20 h21
    exact ⟨g, hg⟩

/-- Witness of C12: row 2 of an `OR` gate over the sample wires. -/
theorem row_plaintext_follows_truth_witness :
    ((emptyGate OR).typ = AND ∨ (emptyGate OR).typ = OR ∨ (emptyGate OR).typ = XOR) ∧
    (selOut (emptyGate OR).typ sampleOut 2 =
      (if truth (emptyGate OR).typ (bit1 2) (bit0 2) then sampleOut.l1 else sampleOut.l0) ∧
    (∀ g, garbleGate toyAEAD (emptyGate OR) sampleIn1 sampleIn2b sampleOut sampleNonces
        = .ok g →
      ∃ key, rowKey sampleIn1 sampleIn2b 2 = .ok key ∧
        enc toyAEAD key (sampleNonces 2)
          (if truth (emptyGate OR).typ (bit1 2) (bit0 2) then sampleOut.l1 else sampleOut.l0)
          = .ok (g.table 2)) ∧
    (sampleIn1.l0.length = 16 → sampleIn1.l1.length = 16 → sampleIn2b.l0.length = 16 →
      sampleIn2b.l1.length = 16 →
      ∃ g, garbleGate toyAEAD (emptyGate OR) sampleIn1 sampleIn2b sampleOut sampleNonces
        = .ok g)) :=
  ⟨by decide,
    row_plaintext_follows_truth toyAEAD (emptyGate OR) sampleIn1 sampleIn2b sampleOut
      sampleNonces 2 (by decide)⟩

/-! ## Matching row -/

theorem dec_right_key (A : AEAD) (hso : SealOpen A) (key nonce p : Bytes)
    (hk : key.length = 16) (hn : nonce.length = 12) :
    dec A key (nonce ++ A.Seal key nonce p) = .ok (.ok p) := by
  rw [dec_eq A key _ hk (by simp [hn])]
  have h1 : (nonce ++ A.Seal key nonce p).take 12 = nonce := by
    rw [← hn]; simp
  have h2 : (nonce ++ A.Seal key nonce p).drop 12 = A.Seal key nonce p := by
    rw [← hn]; simp
  rw [h1, h2, hso key nonce p hk hn]

theorem selOut_symm (typ : GateType) (out : Wire) (i : Fin 4)
    (htyp : typ = AND ∨ typ = OR ∨ typ = XOR) :
    selOut typ out i = out.labelFor (truth typ (bit0 i) (bit1 i)) := by
  rcases htyp with h | h | h <;> subst h <;> fin_cases i <;>
    simp [selOut, truth, Wire.labelFor, bit0, bit1, AND, OR, XOR]

theorem sel_of_bits (in1 in2 : Wire) (i : Fin 4) :
    selIn1 in1 i = in1.labelFor (bit0 i) ∧ selIn2 in2 i = in2.labelFor (bit1 i) := by
  fin_cases i <;> simp [selIn1, selIn2, Wire.labelFor, bit0, bit1]

theorem row_of_bits (b1 b2 : Bool) : ∃ i : Fin 4, bit0 i = b1 ∧ bit1 i = b2 := by
  cases b1 <;> cases b2
  · exact ⟨0, by decide, by decide⟩
  · exact ⟨2, by decide, by decide⟩
  · exact ⟨1, by decide, by decide⟩
  · exact ⟨3, by decide, by decide⟩

/-- C13. Matching row exists and carries the right label: for a gate of type
AND, OR or XOR, input wires with 16-byte labels and input bits `(b1, b2)`, the
garbled table has an index `i` whose row key equals the key `evaluateGate`
derives from `in1.label_for(b1)` and `in2.label_for(b2)`, whose entry is the
encryption of `out.label_for(truth(typ, b1, b2))` under that key, and which
therefore opens to that label when `Open` inverts `Seal`. -/
theorem matching_row_exists (A : AEAD) (gate : Gate) (in1 in2 out : Wire)
    (nonces : Fin 4 → Bytes) (b1 b2 : Bool)
    (htyp : gate.typ = AND ∨ gate.typ = OR ∨ gate.typ = XOR)
    (h10 : in1.l0.length = 16) (h11 : in1.l1.length = 16)
    (h20 : in2.l0.length = 16) (h21 : in2.l1.length = 16)
    (hN : ∀ i, (nonces i).length = 12) :
    ∃ g, garbleGate A gate in1 in2 out nonces = .ok g ∧
      ∃ i key, rowKey in1 in2 i = .ok key ∧
        xorBytes LabelLength (in1.labelFor b1) (in2.labelFor b2) = .ok key ∧
        enc A key (nonces i) (out.labelFor (truth gate.typ b1 b2)) = .ok (g.table i) ∧
        (SealOpen A →
          dec A key (g.table i) = .ok (.ok (out.labelFor (truth gate.typ b1 b2)))) := by
  obtain ⟨g, hg, _, htab⟩ := garbleGate_ok A gate in1 in2 out nonces h10 h11 h20 h21
  obtain ⟨i, hb0, hb1⟩ := row_of_bits b1 b2
  obtain ⟨hk, hkl⟩ := rowKey_ok in1 in2 i h10 h11 h20 h21
  obtain ⟨s1, s2⟩ := sel_of_bits in1 in2 i
  have hout := selOut_symm gate.typ out i htyp
  rw [hb0, hb1] at hout
  rw [hb0] at s1
  rw [hb1] at s2
  have hx := (xorLabels_ok (in1.labelFor b1) (in2.labelFor b2)
    (labelFor_length in1 b1 h10 h11) (labelFor_length in2 b2 h20 h21)).1
  have ht := htab i
  rw [hout] at ht
  rw [s1, s2] at hk hkl ht
  refine ⟨g, hg, i, _, hk, hx, ?_, ?_⟩
  · rw [ht]
    exact enc_ok A _ _ _ hkl
  · intro hso
    rw [ht]
    exact dec_right_key A hso _ _ _ hkl (hN i)

/-- Witness of C13: an `AND` gate over the sample wires and the input (0, 1). -/
theorem matching_row_exists_witness :
    ((emptyGate AND).typ = AND ∨ (emptyGate AND).typ = OR ∨ (emptyGate AND).typ = XOR) ∧
    (∀ i, (sampleNonces i).length = 12) ∧
    ∃ g, garbleGate toyAEAD (emptyGate AND) sampleIn1 sampleIn2b sampleOut sampleNonces
        = .ok g ∧
      ∃ i key, rowKey sampleIn1 sampleIn2b i = .ok key ∧
        xorBytes LabelLength (sampleIn1.labelFor false) (sampleIn2b.labelFor true) = .ok key ∧
        enc toyAEAD key (sampleNonces i)
          (sampleOut.labelFor (truth (emptyGate AND).typ false true)) = .ok (g.table i) ∧
        (SealOpen toyAEAD →
          dec toyAEAD key (g.table i) =
            .ok (.ok (sampleOut.labelFor (truth (emptyGate AND).typ false true)))) :=
  ⟨by decide, by decide,
    matching_row_exists toyAEAD (emptyGate AND) sampleIn1 sampleIn2b sampleOut sampleNonces
      false true (by decide) (by decide) (by decide) (by decide) (by decide) (by decide)⟩

/-! ## Distinct label offsets -/

/-- C14. Sufficient condition for correct evaluation: under an ideal cipher, for
a gate of type AND, OR or XOR and input wires with 16-byte labels such that
`in1.l0 ≠ in1.l1`, `in2.l0 ≠ in2.l1` and `in1.l0 XOR in1.l1` differs from
`in2.l0 XOR in2.l1`, the four row keys are pairwise distinct and, for every
`(b1, b2)`, evaluating the garbled gate on `in1.label_for(b1)`,
`in2.label_for(b2)` returns `out.label_for(truth(typ, b1, b2))`. -/
theorem distinct_offsets_suffice (A : AEAD) (hso : SealOpen A) (hwk : WrongKeyFails A)
    (gate : Gate) (in1 in2 out : Wire) (nonces : Fin 4 → Bytes)
    (htyp : gate.typ = AND ∨ gate.typ = OR ∨ gate.typ = XOR)
    (h10 : in1.l0.length = 16) (h11 : in1.l1.length = 16)
    (h20 : in2.l0.length = 16) (h21 : in2.l1.length = 16)
    (hN : ∀ i, (nonces i).length = 12)
    (hd1 : in1.l0 ≠ in1.l1) (hd2 : in2.l0 ≠ in2.l1)
    (hD : xorZip in1.l0 in1.l1 ≠ xorZip in2.l0 in2.l1) :
    (∀ i j, i ≠ j → rowKey in1 in2 i ≠ rowKey in1 in2 j) ∧
    ∀ b1 b2, garbleEval A gate in1 in2 out nonces (in1.labelFor b1) (in2.labelFor b2) =
      .ok (.ok (out.labelFor (truth gate.typ b1 b2))) := by
  obtain ⟨n10, n20, n31, n32, e30, e21⟩ := rowKeys_distinct in1 in2 h10 h11 h20 h21 hd1 hd2
  have k30 : xorZip in1.l1 in2.l1 ≠ xorZip in1.l0 in2.l0 := fun e => hD (e30.mp e)
  have k21 : xorZip in1.l0 in2.l1 ≠ xorZip in1.l1 in2.l0 := fun e => hD (e21.mp e)
  constructor
  · intro i j hij
    rw [(rowKey_ok in1 in2 i h10 h11 h20 h21).1, (rowKey_ok in1 in2 j h10 h11 h20 h21).1]
    intro e
    have e' := Except.ok.inj e
    revert hij e'
    fin_cases i <;> fin_cases j <;> simp [selIn1, selIn2] <;> intro e' <;>
      first
      | exact n10 e' | exact n10 e'.symm | exact n20 e' | exact n20 e'.symm
      | exact n31 e' | exact n31 e'.symm | exact n32 e' | exact n32 e'.symm
      | exact k30 e' | exact k30 e'.symm | exact k21 e' | exact k21 e'.symm
  · intro b1 b2
    rw [garbleEval_firstMatch A hso hwk gate in1 in2 out nonces _ _ h10 h11 h20 h21 hN
      (labelFor_length in1 b1 h10 h11) (labelFor_length in2 b2 h20 h21)]
    rcases htyp with ht | ht | ht <;> cases b1 <;> cases b2 <;>
      simp [Wire.labelFor, truth, selOut, AND, OR, XOR, ht, n10, n20, n31, n32, k30, k21]

/-- Witness of C14: an `OR` gate over `sampleIn1` and `sampleIn2b`, whose label
offsets `01…01` and `07…07` differ. -/
theorem distinct_offsets_suffice_witness :
    SealOpen toyAEAD ∧ WrongKeyFails toyAEAD ∧
    sampleIn1.l0 ≠ sampleIn1.l1 ∧ sampleIn2b.l0 ≠ sampleIn2b.l1 ∧
    xorZip sampleIn1.l0 sampleIn1.l1 ≠ xorZip sampleIn2b.l0 sampleIn2b.l1 ∧
    ((∀ i j, i ≠ j → rowKey sampleIn1 sampleIn2b i ≠ rowKey sampleIn1 sampleIn2b j) ∧
    ∀ b1 b2, garbleEval toyAEAD (emptyGate OR) sampleIn1 sampleIn2b sampleOut sampleNonces
        (sampleIn1.labelFor b1) (sampleIn2b.labelFor b2) =
      .ok (.ok (sampleOut.labelFor (truth (emptyGate OR).typ b1 b2)))) :=
  ⟨toyAEAD_sealOpen, toyAEAD_wrongKeyFails, by decide, by decide, by decide,
    distinct_offsets_suffice toyAEAD toyAEAD_sealOpen toyAEAD_wrongKeyFails (emptyGate OR)
      sampleIn1 sampleIn2b sampleOut sampleNonces (by decide) (by decide) (by decide)
      (by decide) (by decide) (by decide) (by decide) (by decide) (by decide)⟩

/-! ## Dependence on the labels and totality -/

theorem evalLoop_returns (A : AEAD) (key : Bytes) (table : Fin 4 → Bytes)
    (hk : key.length = 16) (ht : ∀ i, 12 ≤ (table i).length) :
    ∃ r, evalLoop A key table [0, 1, 2, 3] = .ok r := by
  rcases dec_cases A key (table 0) hk (ht 0) with ⟨p0, e0⟩ | e0 <;>
  rcases dec_cases A key (table 1) hk (ht 1) with ⟨p1, e1⟩ | e1 <;>
  rcases dec_cases A key (table 2) hk (ht 2) with ⟨p2, e2⟩ | e2 <;>
  rcases dec_cases A key (table 3) hk (ht 3) with ⟨p3, e3⟩ | e3 <;>
  simp [evalLoop, e0, e1, e2, e3]

theorem garbled_entry_length (A : AEAD) (g : Gate) (K P N : Fin 4 → Bytes)
    (hN : ∀ i, (N i).length = 12)
    (ht : ∀ i, g.table i = N i ++ A.Seal (K i) (N i) (P i)) (i : Fin 4) :
    12 ≤ (g.table i).length := by
  rw [ht i, List.length_append, hN i]
  omega

/-- C15. `evaluateGate` sees its two labels only through their XOR: for every
gate and 16-byte labels, two label pairs with the same byte-wise XOR give the
same outcome, swapping the two labels changes nothing, and on a gate garbled
from 16-byte labels any 16-byte pair whose XOR equals a row key evaluates
successfully when `Open` inverts `Seal`, whether or not the labels belong to a
wire of the gate. -/
theorem evaluateGate_depends_on_xor (A : AEAD) (gate : Gate) (l1 l2 l1' l2' : Bytes)
    (h1 : l1.length = 16) (h2 : l2.length = 16)
    (h1' : l1'.length = 16) (h2' : l2'.length = 16) :
    (xorZip l1 l2 = xorZip l1' l2' →
      evaluateGate A gate l1 l2 = evaluateGate A gate l1' l2') ∧
    evaluateGate A gate l1 l2 = evaluateGate A gate l2 l1 ∧
    (∀ (g : Gate) (in1 in2 out : Wire) (nonces : Fin 4 → Bytes), SealOpen A →
      in1.l0.length = 16 → in1.l1.length = 16 → in2.l0.length = 16 → in2.l1.length = 16 →
      (∀ i, (nonces i).length = 12) →
      garbleGate A gate in1 in2 out nonces = .ok g →
      (∃ i, rowKey in1 in2 i = xorBytes LabelLength l1 l2) →
      ∃ p, evaluateGate A g l1 l2 = .ok (.ok p)) := by
  obtain ⟨hx, hl⟩ := xorLabels_ok l1 l2 h1 h2
  obtain ⟨hx', _⟩ := xorLabels_ok l1' l2' h1' h2'
  obtain ⟨hxs, _⟩ := xorLabels_ok l2 l1 h2 h1
  refine ⟨?_, ?_, ?_⟩
  · intro e
    simp only [evaluateGate, hx, hx', e]
  · simp only [evaluateGate, hx, hxs, xorZip_comm l2 l1]
  · intro g in1 in2 out nonces hso h10 h11 h20 h21 hN hg ⟨i, hi⟩
    obtain ⟨g2, hg2, _, htab⟩ := garbleGate_ok A gate in1 in2 out nonces h10 h11 h20 h21
    have hgg : g2 = g := by
      rw [hg2] at hg
      exact Except.ok.inj hg
    subst hgg
    obtain ⟨hk, hkl⟩ := rowKey_ok in1 in2 i h10 h11 h20 h21
    have hkey : xorZip (selIn1 in1 i) (selIn2 in2 i) = xorZip l1 l2 := by
      rw [hk, hx] at hi
      exact Except.ok.inj hi
    have hlen : ∀ j, 12 ≤ (g2.table j).length :=
      garbled_entry_length A g2 _ _ nonces hN htab
    have hopen : dec A (xorZip l1 l2) (g2.table i) = .ok (.ok (selOut gate.typ out i)) := by
      rw [htab i, hkey]
      exact dec_right_key A hso _ _ _ hl (hN i)
    obtain ⟨j, p, hj, hprev⟩ := dec_least_success A _ _ hl hlen ⟨i, _, hopen⟩
    refine ⟨p, ?_⟩
    simp only [evaluateGate, hx]
    exact evalLoop_first A _ _ j p hj hprev

/-- Witness of C15: on the garbled sample gate the pairs (`64…64`, `67…67`) and
(`01…01`, `02…02`) have the same XOR `03…03`, the key of row 1. -/
theorem evaluateGate_depends_on_xor_witness :
    xorZip (List.replicate 16 100) (List.replicate 16 103) =
      xorZip sampleIn1.l1 sampleIn2b.l0 ∧
    rowKey sampleIn1 sampleIn2b 1 =
      xorBytes LabelLength (List.replicate 16 100) (List.replicate 16 103) ∧
    ((xorZip (List.replicate 16 100) (List.replicate 16 103) =
        xorZip sampleIn1.l1 sampleIn2b.l0 →
      evaluateGate toyAEAD sampleGate (List.replicate 16 100) (List.replicate 16 103) =
        evaluateGate toyAEAD sampleGate sampleIn1.l1 sampleIn2b.l0) ∧
    evaluateGate toyAEAD sampleGate (List.replicate 16 100) (List.replicate 16 103) =
      evaluateGate toyAEAD sampleGate (List.replicate 16 103) (List.replicate 16 100) ∧
    (∀ (g : Gate) (in1 in2 out : Wire) (nonces : Fin 4 → Bytes), SealOpen toyAEAD →
      in1.l0.length = 16 → in1.l1.length = 16 → in2.l0.length = 16 → in2.l1.length = 16 →
      (∀ i, (nonces i).length = 12) →
      garbleGate toyAEAD sampleGate in1 in2 out nonces = .ok g →
      (∃ i, rowKey in1 in2 i =
        xorBytes LabelLength (List.replicate 16 100) (List.replicate 16 103)) →
      ∃ p, evaluateGate toyAEAD g (List.replicate 16 100) (List.replicate 16 103)
        = .ok (.ok p))) :=
  ⟨by decide, by decide,
    evaluateGate_depends_on_xor toyAEAD sampleGate (List.replicate 16 100)
      (List.replicate 16 103) sampleIn1.l1 sampleIn2b.l0
      (by decide) (by decide) (by decide) (by decide)⟩

/-- C16. `evaluateGate` is total on garbled gates: for input wires with 16-byte
labels, 12-byte nonces and `l1`, `l2` of exactly 16 bytes, `garbleGate` returns
a gate on which `evaluateGate` does not abort: the derived key has 16 bytes,
every table entry has at least 12 bytes, each of the four `dec` trials returns,
and so does `evaluateGate`. -/
theorem evaluateGate_total_on_garbled (A : AEAD) (gate : Gate) (in1 in2 out : Wire)
    (nonces : Fin 4 → Bytes) (l1 l2 : Bytes)
    (h10 : in1.l0.length = 16) (h11 : in1.l1.length = 16)
    (h20 : in2.l0.length = 16) (h21 : in2.l1.length = 16)
    (hN : ∀ i, (nonces i).length = 12)
    (h1 : l1.length = 16) (h2 : l2.length = 16) :
    ∃ g, garbleGate A gate in1 in2 out nonces = .ok g ∧
      ∃ key, xorBytes LabelLength l1 l2 = .ok key ∧ key.length = 16 ∧
        (∀ i, 12 ≤ (g.table i).length) ∧
        (∀ i, ∃ r, dec A key (g.table i) = .ok r) ∧
        ∃ r, evaluateGate A g l1 l2 = .ok r := by
  obtain ⟨g, hg, _, htab⟩ := garbleGate_ok A gate in1 in2 out nonces h10 h11 h20 h21
  obtain ⟨hx, hl⟩ := xorLabels_ok l1 l2 h1 h2
  have hlen : ∀ j, 12 ≤ (g.table j).length :=
    garbled_entry_length A g _ _ nonces hN htab
  refine ⟨g, hg, xorZip l1 l2, hx, hl, hlen, ?_, ?_⟩
  · intro i
    rcases dec_cases A (xorZip l1 l2) (g.table i) hl (hlen i) with ⟨p, e⟩ | e
    · exact ⟨_, e⟩
    · exact ⟨_, e⟩
  · simp only [evaluateGate, hx]
    exact evalLoop_returns A _ _ hl hlen

/-- Witness of C16: the sample wires garbled as an `AND` gate, evaluated on two
16-byte labels of another wire pair. -/
theorem evaluateGate_total_on_garbled_witness :
    (∀ i, (sampleNonces i).length = 12) ∧
    (List.replicate 16 100).length = 16 ∧ (List.replicate 16 200).length = 16 ∧
    ∃ g, garbleGate toyAEAD (emptyGate AND) sampleIn1 sampleIn2b sampleOut sampleNonces
        = .ok g ∧
      ∃ key, xorBytes LabelLength (List.replicate 16 100) (List.replicate 16 200) = .ok key ∧
        key.length = 16 ∧
        (∀ i, 12 ≤ (g.table i).length) ∧
        (∀ i, ∃ r, dec toyAEAD key (g.table i) = .ok r) ∧
        ∃ r, evaluateGate toyAEAD g (List.replicate 16 100) (List.replicate 16 200) = .ok r :=
  ⟨by decide, by decide, by decide,
    evaluateGate_total_on_garbled toyAEAD (emptyGate AND) sampleIn1 sampleIn2b sampleOut
      sampleNonces (List.replicate 16 100) (List.replicate 16 200)
      (by decide) (by decide) (by decide) (by decide) (by decide) (by decide) (by decide)⟩

end GarbledCircuits
